import Mathlib

/-!
Verification of the savings-tracker core (savings history reconstruction,
cumulative totals, and forecast engine) against its specification.

The embedding follows `src/saving/main.py`:
* `compute_growth_monthly` and `compute_growth` are the two growth helpers
  (lines 163-173).
* `reconstructAux` / `reconstruct` embed the history-reconstruction loop of
  `tab_main` (lines 221-246); the annual growth rate, fixed to 0.06 at
  line 223 of the source, is kept as a parameter here so that properties can
  be stated for every rate.
* `cumulativeAux` / `cumulative` embed the cumulative-total loop of
  `tab_forecast` (lines 267-276).

Dates are calendar dates `(year, month, day)`; emitted chart dates are
represented by their proleptic-Gregorian day ordinal (`Date.toOrdinal`,
the semantics of Python `datetime.toordinal`), so that
`date + timedelta(days = n)` becomes ordinal addition and `datetime`
comparison becomes integer comparison.  Monetary fields stored in deposit
records are rationals; running balances, which are multiplied by the
irrational monthly growth factor, live in `ℝ`.
-/

/-- A calendar date, as carried by a Python `datetime`. -/
structure Date where
  year : Int
  month : Int
  day : Int
deriving DecidableEq

/-- Gregorian leap-year test (Python `calendar.isleap`). -/
def isLeap (y : Int) : Bool :=
  y % 4 == 0 && (y % 100 != 0 || y % 400 == 0)

/-- Days in the months strictly before month `m`, for a (non-)leap year. -/
def daysBeforeMonth (m : Int) (leap : Bool) : Int :=
  let k : Int := if leap then 1 else 0
  if m ≤ 1 then 0
  else if m = 2 then 31
  else if m = 3 then 59 + k
  else if m = 4 then 90 + k
  else if m = 5 then 120 + k
  else if m = 6 then 151 + k
  else if m = 7 then 181 + k
  else if m = 8 then 212 + k
  else if m = 9 then 243 + k
  else if m = 10 then 273 + k
  else if m = 11 then 304 + k
  else 334 + k

/-- Proleptic-Gregorian day ordinal of a date (Python `datetime.toordinal`):
day 1 is 0001-01-01.  Comparison of Python `datetime` values agrees with
comparison of their ordinals. -/
def Date.toOrdinal (d : Date) : Int :=
  let y := d.year - 1
  365 * y + y / 4 - y / 100 + y / 400 + daysBeforeMonth d.month (isLeap d.year) + d.day

/-- A deposit row `(date, amount, is_total, current_total)` as read from the
`deposits` table (source lines 84-90, 221, 264). -/
structure Record where
  date : Date
  amount : ℚ
  is_total : Bool
  current_total : Option ℚ
deriving DecidableEq

/-- A point of the reconstructed or forecast balance chart: a day ordinal
paired with a balance value. -/
structure BalancePoint where
  date : Int
  value : ℝ

/-- `monthly_rate = (1 + annual_rate) ** (1 / 12) - 1`
(source lines 169 and 224, identical formula at both sites). -/
noncomputable def monthlyRate (annual_rate : ℝ) : ℝ :=
  (1 + annual_rate) ^ ((1 : ℝ) / 12) - 1

/-- `compute_growth_monthly(initial, months, monthly_rate)` (source line 163):
`initial * ((1 + monthly_rate) ** months)`. -/
def compute_growth_monthly (v : ℝ) (months : ℕ) (monthly_rate : ℝ) : ℝ :=
  v * (1 + monthly_rate) ^ months

/-- The loop body of `compute_growth` (source lines 170-172):
`n` remaining iterations, current `value`, appending each updated value. -/
def computeGrowthAux (monthly_rate monthly : ℝ) : ℝ → ℕ → List ℝ
  | _, 0 => []
  | value, n + 1 =>
    let v := value * (1 + monthly_rate) + monthly
    v :: computeGrowthAux monthly_rate monthly v n

/-- `compute_growth(initial, monthly, years, annual_rate)` (source lines
166-173): runs the monthly recurrence `years * 12` times. -/
noncomputable def compute_growth (initial monthly : ℝ) (years : ℕ) (annual_rate : ℝ) : List ℝ :=
  computeGrowthAux (monthlyRate annual_rate) monthly initial (years * 12)

/-- `months_between = (date.year - last_date.year) * 12 + (date.month - last_date.month)`
(source line 234). -/
def monthsBetween (last d : Date) : Int :=
  (d.year - last.year) * 12 + (d.month - last.month)

/-- The inner synthetic-point loop of the reconstruction (source lines
235-239): starting from loop index `i`, run `n` iterations; each iteration
compounds the value one month and emits a point at `last_date + 30 * (i + 1)`
days.  Returns the emitted points and the final value. -/
def synthAux (monthly_rate : ℝ) (lastOrd : Int) : ℝ → ℕ → ℕ → List BalancePoint × ℝ
  | v, _, 0 => ([], v)
  | v, i, n + 1 =>
    let v1 := compute_growth_monthly v 1 monthly_rate
    let p : BalancePoint := ⟨lastOrd + 30 * ((i : Int) + 1), v1⟩
    let rest := synthAux monthly_rate lastOrd v1 (i + 1) n
    (p :: rest.1, rest.2)

/-- The per-record balance update (source lines 240-243):
`if current_total: current_value = current_total; else: current_value += amount`.
Python truthiness of the stored value: `None` and `0` are falsy. -/
def recUpdate (v : ℝ) (r : Record) : ℝ :=
  match r.current_total with
  | some c => if c = 0 then v + (r.amount : ℝ) else (c : ℝ)
  | none => v + (r.amount : ℝ)

/-- The reconstruction loop over the sorted records (source lines 229-246),
with state `(current_value, last_date)`. -/
def reconstructAux (monthly_rate : ℝ) : ℝ → Option Date → List Record → List BalancePoint
  | _, _, [] => []
  | v, last, r :: rest =>
    let s : List BalancePoint × ℝ :=
      match last with
      | some ld => synthAux monthly_rate ld.toOrdinal v 0 (monthsBetween ld r.date).toNat
      | none => ([], v)
    let v2 := recUpdate s.2 r
    s.1 ++ ⟨r.date.toOrdinal, v2⟩ :: reconstructAux monthly_rate v2 (some r.date) rest

/-- `reconstruct(records, annual_growth_rate)`: the history-reconstruction
loop (source lines 221-246) on records already sorted ascending by date,
with the annual rate (hard-wired to `0.06` at line 223) as a parameter. -/
noncomputable def reconstruct (records : List Record) (annual_rate : ℝ) : List BalancePoint :=
  reconstructAux (monthlyRate annual_rate) 0 none records

/-- The cumulative-total loop of `tab_forecast` (source lines 267-276):
`if current_total: total = current_total; elif is_total: total = amt;
else: total += amt`, appending `total` after each record. -/
def cumulativeAux (total : ℚ) : List Record → List ℚ
  | [] => []
  | r :: rest =>
    let t : ℚ :=
      match r.current_total with
      | some c => if c = 0 then (if r.is_total then r.amount else total + r.amount) else c
      | none => if r.is_total then r.amount else total + r.amount
    t :: cumulativeAux t rest

/-- `cumulative(records)`: running totals, starting from `0`. -/
def cumulative (records : List Record) : List ℚ :=
  cumulativeAux 0 records

/-! ### Helper lemmas -/

/-- With a zero annual rate the monthly rate is exactly zero. -/
theorem monthlyRate_zero : monthlyRate 0 = 0 := by
  simp [monthlyRate]

/-- Closed form of the synthetic-point loop at monthly rate `0`: the value is
unchanged and the `n` points step the date by 30 days each. -/
theorem synthAux_zero (lo : Int) : ∀ (n : ℕ) (v : ℝ) (i : ℕ),
    synthAux 0 lo v i n =
      ((List.range n).map (fun j => ⟨lo + 30 * ((i : Int) + (j : Int) + 1), v⟩), v) := by
  intro n
  induction n with
  | zero => intro v i; simp [synthAux]
  | succ n ih =>
    intro v i
    simp only [synthAux, compute_growth_monthly, pow_one, add_zero, mul_one, ih,
      List.range_succ_eq_map, List.map_cons, List.map_map, Prod.mk.injEq, List.cons.injEq,
      Nat.cast_zero, BalancePoint.mk.injEq]
    refine ⟨⟨trivial, List.map_congr_left ?_⟩, trivial⟩
    intro j hj
    simp only [Function.comp, BalancePoint.mk.injEq]
    refine ⟨by push_cast; ring, trivial⟩

/-! ### C8: a single record reconstructs to a single point -/

/-- C8: for every single-record list and every annual growth rate,
`reconstruct` returns exactly one `BalancePoint`, dated at the record's own
date, with no synthetic interpolation points. -/
theorem reconstruct_single_record (r : Record) (rate : ℝ) :
    reconstruct [r] rate = [⟨r.date.toOrdinal, recUpdate 0 r⟩] := by
  simp [reconstruct, reconstructAux]

/-! ### C1: the per-record update is keyed on `current_total`, not `is_total` -/

/-- A record whose `is_total` flag is set but whose `current_total` is `0`. -/
def c1rec : Record := ⟨⟨2024, 3, 10⟩, 100, true, some 0⟩

/-- C1 counterexample: on a record with `is_total = true` and
`current_total = 0`, the claimed rule would set the running value to
`current_total = 0`, but `reconstruct` adds the amount and emits `100`:
the update is not conditioned on the `is_total` flag. -/
theorem c1_counterexample_is_total_ignored :
    c1rec.is_total = true ∧ c1rec.current_total = some 0 ∧
      (reconstruct [c1rec] 0).map BalancePoint.value = [(100 : ℝ)] ∧ (100 : ℝ) ≠ 0 := by
  refine ⟨rfl, rfl, ?_, by norm_num⟩
  simp [reconstruct, reconstructAux, recUpdate, c1rec]

/-- The amended update rule, written from the amended claim: the choice
between replace and add is conditioned solely on `current_total` being
present and non-zero (Python truthiness), never on `is_total`. -/
def truthyTotalUpdate (v : ℝ) (r : Record) : ℝ :=
  if r.current_total.getD 0 ≠ 0 then ((r.current_total.getD 0 : ℚ) : ℝ)
  else v + (r.amount : ℝ)

/-- C1 amended: for every record processed by `reconstruct`, the running
balance update replaces the value with `current_total` exactly when
`current_total` is present and non-zero, and otherwise adds `amount`; the
`is_total` flag plays no role. -/
theorem c1_amended_update_rule :
    (∀ (v : ℝ) (r : Record), recUpdate v r = truthyTotalUpdate v r) ∧
      (∀ (r : Record) (rate : ℝ),
        reconstruct [r] rate = [⟨r.date.toOrdinal, truthyTotalUpdate 0 r⟩]) := by
  have h : ∀ (v : ℝ) (r : Record), recUpdate v r = truthyTotalUpdate v r := by
    intro v r
    cases hc : r.current_total with
    | none => simp [recUpdate, truthyTotalUpdate, hc]
    | some c =>
      by_cases h0 : c = 0 <;> simp [recUpdate, truthyTotalUpdate, hc, h0]
  refine ⟨h, ?_⟩
  intro r rate
  simp [reconstruct, reconstructAux, h]

/-! ### C4: the cumulative-total calculator -/

/-- The per-record rule as the claim words it: if `current_total` is present
and non-zero, the total becomes `current_total`; else if `is_total` is set,
the total becomes `amount`; else `amount` is added. -/
def claimStep (total : ℚ) (r : Record) : ℚ :=
  if r.current_total.getD 0 ≠ 0 then r.current_total.getD 0
  else if r.is_total then r.amount
  else total + r.amount

/-- The claim's algorithm: fold `claimStep` from `0`, appending the running
total after each record. -/
def cumulativeClaim (records : List Record) : List ℚ :=
  (records.foldl (fun st r => (claimStep st.1 r, st.2 ++ [claimStep st.1 r])) (0, [])).2

/-- The step of `cumulativeAux` agrees with `claimStep`. -/
theorem cumulativeAux_step_eq (total : ℚ) (r : Record) :
    (match r.current_total with
      | some c => if c = 0 then (if r.is_total then r.amount else total + r.amount) else c
      | none => if r.is_total then r.amount else total + r.amount) = claimStep total r := by
  cases hc : r.current_total with
  | none => simp [claimStep, hc]
  | some c => by_cases h0 : c = 0 <;> simp [claimStep, hc, h0]

/-- Unfolding of the claim's fold against the source loop. -/
theorem cumulativeClaim_foldl (records : List Record) : ∀ (t : ℚ) (acc : List ℚ),
    (records.foldl (fun st r => (claimStep st.1 r, st.2 ++ [claimStep st.1 r])) (t, acc)).2 =
      acc ++ cumulativeAux t records := by
  induction records with
  | nil => intro t acc; simp [cumulativeAux]
  | cons r rest ih =>
    intro t acc
    simp only [List.foldl_cons, cumulativeAux, ih, cumulativeAux_step_eq]
    simp

/-- The example records of the claim:
`[{amount:100}, {amount:50}, {current_total:500, is_total:true}]`. -/
def c4ex : List Record :=
  [⟨⟨2024, 1, 10⟩, 100, false, none⟩, ⟨⟨2024, 2, 10⟩, 50, false, none⟩,
    ⟨⟨2024, 3, 10⟩, 0, true, some 500⟩]

/-- C4: `cumulative` returns one running total per record, following the
claimed rule (replace on truthy `current_total`, reset to `amount` on
`is_total`, add otherwise), and on the claim's example it yields
`[100, 150, 500]`. -/
theorem cumulative_follows_claimed_rule :
    (∀ records : List Record, cumulative records = cumulativeClaim records) ∧
      cumulative c4ex = [100, 150, 500] := by
  constructor
  · intro records
    simpa [cumulative, cumulativeClaim] using (cumulativeClaim_foldl records 0 []).symm
  · norm_num [cumulative, c4ex, cumulativeAux]

/-! ### C2: two non-total records eleven months apart, zero growth -/

/-- First record of the claim's scenario: 100 added on 2024-01-15. -/
def c2r1 : Record := ⟨⟨2024, 1, 15⟩, 100, false, none⟩

/-- Second record of the claim's scenario: 50 added on 2024-12-15,
eleven calendar months after the first. -/
def c2r2 : Record := ⟨⟨2024, 12, 15⟩, 50, false, none⟩

/-- The series the code emits on the claim's scenario: the first record's
point, eleven 30-day-stepped synthetic points of value 100, then 150 at the
second record's date (day ordinals of 2024-01-15 and 2024-12-15 are 738900
and 739235). -/
def c2points : List BalancePoint :=
  [⟨738900, 100⟩, ⟨738930, 100⟩, ⟨738960, 100⟩, ⟨738990, 100⟩, ⟨739020, 100⟩,
    ⟨739050, 100⟩, ⟨739080, 100⟩, ⟨739110, 100⟩, ⟨739140, 100⟩, ⟨739170, 100⟩,
    ⟨739200, 100⟩, ⟨739230, 100⟩, ⟨739235, 150⟩]

/-- Evaluation of the reconstruction on the claim's scenario. -/
theorem reconstruct_c2_eq : reconstruct [c2r1, c2r2] 0 = c2points := by
  have hr : List.range 11 = [0, 1, 2, 3, 4, 5, 6, 7, 8, 9, 10] := rfl
  have hm : (monthsBetween (Date.mk 2024 1 15) (Date.mk 2024 12 15)).toNat = 11 := by decide
  norm_num [reconstruct, monthlyRate_zero, reconstructAux, c2r1, c2r2, hm, synthAux_zero, hr,
    recUpdate, c2points, Date.toOrdinal, daysBeforeMonth, isLeap]

/-- C2 counterexample: the emitted series has 13 points — the first record's
point, 11 synthetic points and the final point — not the 10-synthetic-points
series of 11 (or 12) points the claim describes. -/
theorem c2_counterexample_point_count :
    (reconstruct [c2r1, c2r2] 0).length = 13 ∧ (13 : ℕ) ≠ 11 ∧ (13 : ℕ) ≠ 12 := by
  refine ⟨?_, by norm_num, by norm_num⟩
  rw [reconstruct_c2_eq]
  rfl

/-- C2 amended: on two non-total records of amounts 100 then 50, dated eleven
calendar months apart, with zero annual growth, `reconstruct` emits the
first record's point of value 100, then 11 synthetic points of value 100 at
30-day steps, then a final point of value 150 at the second record's date,
and the value series is monotonically non-decreasing. -/
theorem c2_amended_eleven_synthetic_points :
    (reconstruct [c2r1, c2r2] 0).map BalancePoint.value =
        List.replicate 12 (100 : ℝ) ++ [150] ∧
      (reconstruct [c2r1, c2r2] 0).map BalancePoint.date =
        [738900, 738930, 738960, 738990, 739020, 739050, 739080, 739110, 739140,
          739170, 739200, 739230, 739235] ∧
      ((reconstruct [c2r1, c2r2] 0).map BalancePoint.value).Chain' (· ≤ ·) := by
  rw [reconstruct_c2_eq]
  refine ⟨by norm_num [c2points, List.replicate], by norm_num [c2points], ?_⟩
  norm_num [c2points, List.chain'_cons]

/-! ### C6: chronological order of the emitted dates -/

/-- A record on 2024-01-31 (day ordinal 738916). -/
def c6r1 : Record := ⟨⟨2024, 1, 31⟩, 100, false, none⟩

/-- A record on 2024-02-01 (day ordinal 738917), one day later but one
calendar month ahead. -/
def c6r2 : Record := ⟨⟨2024, 2, 1⟩, 50, false, none⟩

/-- Evaluation of the emitted dates on the Jan-31 / Feb-1 pair: the single
synthetic point lands 30 days after Jan 31, overshooting Feb 1. -/
theorem reconstruct_c6_dates :
    (reconstruct [c6r1, c6r2] 0).map BalancePoint.date = [738916, 738946, 738917] := by
  have hm : (monthsBetween (Date.mk 2024 1 31) (Date.mk 2024 2 1)).toNat = 1 := by decide
  have hr : List.range 1 = [0] := rfl
  norm_num [reconstruct, monthlyRate_zero, reconstructAux, c6r1, c6r2, hm, synthAux_zero, hr,
    recUpdate, Date.toOrdinal, daysBeforeMonth, isLeap]

/-- C6 counterexample: the records 2024-01-31 and 2024-02-01 are sorted
ascending by date, yet the emitted dates `[738916, 738946, 738917]` are not
non-decreasing — the synthetic point at `last_date + 30` days postdates the
second record's date. -/
theorem c6_counterexample_dates_not_sorted :
    c6r1.date.toOrdinal < c6r2.date.toOrdinal ∧
      ¬ ((reconstruct [c6r1, c6r2] 0).map BalancePoint.date).Chain' (· ≤ ·) := by
  refine ⟨by norm_num [c6r1, c6r2, Date.toOrdinal, daysBeforeMonth, isLeap], ?_⟩
  rw [reconstruct_c6_dates]
  norm_num [List.chain'_cons]

/-! ### C3: the forecast recurrence -/

/-- The month-indexed value sequence of the claim: `value_0 = initial` and
`value_{i+1} = value_i * (1 + monthly_rate) + monthly_contribution`. -/
def growthSeq (v0 monthly mr : ℝ) : ℕ → ℝ
  | 0 => v0
  | n + 1 => growthSeq v0 monthly mr n * (1 + mr) + monthly

/-- Shifting the start of `growthSeq` by one step. -/
theorem growthSeq_shift (v0 monthly mr : ℝ) :
    ∀ n, growthSeq (v0 * (1 + mr) + monthly) monthly mr n = growthSeq v0 monthly mr (n + 1) := by
  intro n
  induction n with
  | zero => rfl
  | succ n ih => simp only [growthSeq, ih]

/-- The loop of `compute_growth` produces exactly the values
`growthSeq 1, …, growthSeq n` of the recurrence. -/
theorem computeGrowthAux_eq_growthSeq (mr monthly : ℝ) :
    ∀ (n : ℕ) (v : ℝ), computeGrowthAux mr monthly v n =
      (List.range n).map (fun i => growthSeq v monthly mr (i + 1)) := by
  intro n
  induction n with
  | zero => intro v; simp [computeGrowthAux]
  | succ n ih =>
    intro v
    simp only [computeGrowthAux, ih, List.range_succ_eq_map, List.map_cons, List.map_map,
      List.cons.injEq]
    constructor
    · simp [growthSeq]
    · apply List.map_congr_left
      intro j hj
      simp only [Function.comp]
      rw [growthSeq_shift]

/-- C3: for every `initial`, `monthly_contribution`, `years ≥ 1` and
`annual_rate`, the forecast returns exactly `years * 12` values; the `i`-th
value (from 1) is `value_{i-1} * (1 + monthly_rate) + monthly_contribution`
with `value_0 = initial`, growth applied before the contribution, and the
initial value itself is not part of the output. -/
theorem compute_growth_is_recurrence (initial monthly : ℝ) (years : ℕ) (annual_rate : ℝ)
    (hy : 1 ≤ years) :
    (compute_growth initial monthly years annual_rate).length = years * 12 ∧
      compute_growth initial monthly years annual_rate =
        (List.range (years * 12)).map
          (fun i => growthSeq initial monthly (monthlyRate annual_rate) (i + 1)) ∧
      growthSeq initial monthly (monthlyRate annual_rate) 0 = initial ∧
      ∀ i : ℕ, growthSeq initial monthly (monthlyRate annual_rate) (i + 1) =
        growthSeq initial monthly (monthlyRate annual_rate) i * (1 + monthlyRate annual_rate)
          + monthly := by
  refine ⟨?_, ?_, rfl, fun i => rfl⟩
  · rw [compute_growth, computeGrowthAux_eq_growthSeq]
    simp
  · rw [compute_growth, computeGrowthAux_eq_growthSeq]

/-- Witness for C3 at `initial = 0`, `monthly = 0`, `years = 1`, rate `0`. -/
theorem compute_growth_is_recurrence_witness :
    1 ≤ 1 ∧
      ((compute_growth 0 0 1 0).length = 1 * 12 ∧
        compute_growth 0 0 1 0 =
          (List.range (1 * 12)).map (fun i => growthSeq 0 0 (monthlyRate 0) (i + 1)) ∧
        growthSeq 0 0 (monthlyRate 0) 0 = 0 ∧
        ∀ i : ℕ, growthSeq 0 0 (monthlyRate 0) (i + 1) =
          growthSeq 0 0 (monthlyRate 0) i * (1 + monthlyRate 0) + 0) :=
  ⟨le_refl 1, compute_growth_is_recurrence 0 0 1 0 (le_refl 1)⟩

/-! ### C5: the monthly rate is the exact compound equivalent -/

/-- C5: the monthly rate shared by the reconstruction loop and the forecast
engine (both defined through `monthlyRate`) is the exact compound equivalent
of the annual rate: for every `r > -1`, `(1 + monthlyRate r) ^ 12 = 1 + r`. -/
theorem monthlyRate_exact_compound (r : ℝ) (hr : -1 < r) :
    (∀ (records : List Record),
        reconstruct records r = reconstructAux (monthlyRate r) 0 none records) ∧
      (∀ (initial monthly : ℝ) (years : ℕ),
        compute_growth initial monthly years r =
          computeGrowthAux (monthlyRate r) monthly initial (years * 12)) ∧
      (1 + monthlyRate r) ^ (12 : ℕ) = 1 + r := by
  refine ⟨fun records => rfl, fun initial monthly years => rfl, ?_⟩
  have h0 : (0 : ℝ) < 1 + r := by linarith
  have h1 : 1 + monthlyRate r = (1 + r) ^ ((1 : ℝ) / 12) := by
    rw [monthlyRate]; ring
  rw [h1, ← Real.rpow_natCast ((1 + r) ^ ((1 : ℝ) / 12)) 12, ← Real.rpow_mul h0.le]
  norm_num

/-- Witness for C5 at `r = 0`. -/
theorem monthlyRate_exact_compound_witness :
    -1 < (0 : ℝ) ∧
      ((∀ (records : List Record),
          reconstruct records 0 = reconstructAux (monthlyRate 0) 0 none records) ∧
        (∀ (initial monthly : ℝ) (years : ℕ),
          compute_growth initial monthly years 0 =
            computeGrowthAux (monthlyRate 0) monthly initial (years * 12)) ∧
        (1 + monthlyRate 0) ^ (12 : ℕ) = 1 + 0) :=
  ⟨by norm_num, monthlyRate_exact_compound 0 (by norm_num)⟩

/-! ### C7: strict monotonicity of the forecast -/

/-- With zero starting value and zero contribution the loop emits only zeros,
whatever the monthly rate. -/
theorem computeGrowthAux_zero_zero (mr : ℝ) :
    ∀ n, computeGrowthAux mr 0 0 n = List.replicate n 0 := by
  intro n
  induction n with
  | zero => rfl
  | succ n ih => simp [computeGrowthAux, ih, List.replicate_succ]

/-- C7 counterexample: at `initial = 0`, `monthly_contribution = 0`,
`years = 1`, `annual_rate = 1 > 0` — inputs allowed by the claim — the
forecast is twelve zeros, which is not strictly increasing. -/
theorem c7_counterexample_constant_zero :
    (0 : ℝ) ≤ 0 ∧ (0 : ℝ) < 1 ∧ 1 ≤ 1 ∧
      compute_growth 0 0 1 1 = List.replicate 12 0 ∧
      ¬ (compute_growth 0 0 1 1).Chain' (· < ·) := by
  have hc : compute_growth 0 0 1 1 = List.replicate 12 0 := by
    rw [compute_growth, computeGrowthAux_zero_zero]
  refine ⟨le_refl 0, by norm_num, le_refl 1, hc, ?_⟩
  rw [hc]
  have hrep : List.replicate 12 (0 : ℝ) = 0 :: 0 :: List.replicate 10 0 := rfl
  rw [hrep, List.chain'_cons]
  rintro ⟨h0, -⟩
  exact lt_irrefl 0 h0

/-- A positive annual rate gives a positive monthly rate. -/
theorem monthlyRate_pos (rate : ℝ) (h : 0 < rate) : 0 < monthlyRate rate := by
  have h1 : (1 : ℝ) < (1 + rate) ^ ((1 : ℝ) / 12) := by
    calc (1 : ℝ) = (1 : ℝ) ^ ((1 : ℝ) / 12) := (Real.one_rpow _).symm
      _ < (1 + rate) ^ ((1 : ℝ) / 12) :=
        Real.rpow_lt_rpow (by norm_num) (by linarith) (by norm_num)
  rw [monthlyRate]
  linarith

/-- A non-negative annual rate gives a non-negative monthly rate. -/
theorem monthlyRate_nonneg (rate : ℝ) (h : 0 ≤ rate) : 0 ≤ monthlyRate rate := by
  have h1 : (1 : ℝ) ≤ (1 + rate) ^ ((1 : ℝ) / 12) := by
    calc (1 : ℝ) = (1 : ℝ) ^ ((1 : ℝ) / 12) := (Real.one_rpow _).symm
      _ ≤ (1 + rate) ^ ((1 : ℝ) / 12) :=
        Real.rpow_le_rpow (by norm_num) (by linarith) (by norm_num)
  rw [monthlyRate]
  linarith

/-- From a positive value, each loop iteration strictly increases the value. -/
theorem computeGrowthAux_chain_lt (mr monthly : ℝ) (hmr : 0 < mr) (hmo : 0 ≤ monthly) :
    ∀ (n : ℕ) (v : ℝ), 0 < v → List.Chain (· < ·) v (computeGrowthAux mr monthly v n) := by
  intro n
  induction n with
  | zero => intro v _; exact List.Chain.nil
  | succ n ih =>
    intro v hv
    have hstep : v < v * (1 + mr) + monthly := by nlinarith [mul_pos hv hmr]
    exact List.Chain.cons hstep (ih _ (lt_trans hv hstep))

/-- The emitted forecast values form a strictly increasing chain when the
start is non-negative, the contribution non-negative, their sum positive,
and the monthly rate positive. -/
theorem computeGrowthAux_chain' (mr monthly : ℝ) (hmr : 0 < mr) (hmo : 0 ≤ monthly) :
    ∀ (n : ℕ) (v : ℝ), 0 ≤ v → 0 < v + monthly →
      List.Chain' (· < ·) (computeGrowthAux mr monthly v n) := by
  intro n v hv hvm
  cases n with
  | zero => simp [computeGrowthAux]
  | succ n =>
    have hv1 : 0 < v * (1 + mr) + monthly := by nlinarith [mul_nonneg hv hmr.le]
    exact computeGrowthAux_chain_lt mr monthly hmr hmo n _ hv1

/-- C7 amended: for `annual_rate > 0`, `initial ≥ 0`,
`monthly_contribution ≥ 0` and `years ≥ 1`, the forecast is strictly
increasing provided `initial` and the contribution are not both zero
(`0 < initial + monthly_contribution`); with both zero the output is
constant. -/
theorem compute_growth_strict_increasing (initial monthly rate : ℝ) (years : ℕ)
    (h0 : 0 ≤ initial) (h1 : 0 ≤ monthly) (h2 : 0 < rate) (h3 : 0 < initial + monthly)
    (hy : 1 ≤ years) :
    (compute_growth initial monthly years rate).Chain' (· < ·) := by
  rw [compute_growth]
  exact computeGrowthAux_chain' (monthlyRate rate) monthly (monthlyRate_pos rate h2) h1
    (years * 12) initial h0 h3

/-- Witness for the amended C7 at
`initial = 1, monthly = 0, years = 1, rate = 1`. -/
theorem compute_growth_strict_increasing_witness :
    (0 : ℝ) ≤ 1 ∧ (0 : ℝ) ≤ 0 ∧ (0 : ℝ) < 1 ∧ (0 : ℝ) < 1 + 0 ∧ 1 ≤ 1 ∧
      (compute_growth 1 0 1 1).Chain' (· < ·) :=
  ⟨by norm_num, le_refl 0, by norm_num, by norm_num, le_refl 1,
    compute_growth_strict_increasing 1 0 1 1 (by norm_num) (le_refl 0) (by norm_num)
      (by norm_num) (le_refl 1)⟩

/-! ### C9: the reconstruction is independent of the `is_total` flag -/

/-- A record with its `is_total` flag erased. -/
def stripFlag (r : Record) : Date × ℚ × Option ℚ :=
  (r.date, r.amount, r.current_total)

/-- The per-record update only reads `amount` and `current_total`. -/
theorem recUpdate_congr (v : ℝ) (r1 r2 : Record)
    (ha : r1.amount = r2.amount) (hc : r1.current_total = r2.current_total) :
    recUpdate v r1 = recUpdate v r2 := by
  rw [recUpdate, recUpdate, ha, hc]

/-- The reconstruction loop never reads the `is_total` flag. -/
theorem reconstructAux_strip (mr : ℝ) :
    ∀ (l1 l2 : List Record) (v : ℝ) (last : Option Date),
      l1.map stripFlag = l2.map stripFlag →
      reconstructAux mr v last l1 = reconstructAux mr v last l2 := by
  intro l1
  induction l1 with
  | nil =>
    intro l2 v last h
    cases l2 with
    | nil => rfl
    | cons r l2 => simp [stripFlag] at h
  | cons r1 t1 ih =>
    intro l2 v last h
    cases l2 with
    | nil => simp [stripFlag] at h
    | cons r2 t2 =>
      simp only [List.map_cons, List.cons.injEq, stripFlag, Prod.mk.injEq] at h
      obtain ⟨⟨hd, ha, hc⟩, ht⟩ := h
      simp only [reconstructAux, hd, recUpdate_congr _ r1 r2 ha hc]
      rw [ih t2 _ _ ht]

/-- C9: `reconstruct` is independent of `is_total` — two record lists with
the same dates, amounts and `current_total` values but arbitrary `is_total`
flags produce identical point sequences; moreover a record whose
`current_total` is `None` or `0` is treated as an incremental deposit even
when its `is_total` flag is set. -/
theorem reconstruct_ignores_is_total_flag (l1 l2 : List Record) (rate : ℝ)
    (h : l1.map stripFlag = l2.map stripFlag) :
    reconstruct l1 rate = reconstruct l2 rate ∧
      (∀ (v : ℝ) (r : Record), r.is_total = true →
        (r.current_total = none ∨ r.current_total = some 0) →
        recUpdate v r = v + (r.amount : ℝ)) := by
  constructor
  · exact reconstructAux_strip (monthlyRate rate) l1 l2 0 none h
  · rintro v r _ (hc | hc) <;> simp [recUpdate, hc]

/-- Witness for C9: two single-record lists differing only in the flag. -/
theorem reconstruct_ignores_is_total_flag_witness :
    ([⟨⟨2024, 5, 1⟩, 100, false, some 0⟩] : List Record).map stripFlag =
        ([⟨⟨2024, 5, 1⟩, 100, true, some 0⟩] : List Record).map stripFlag ∧
      (reconstruct [⟨⟨2024, 5, 1⟩, 100, false, some 0⟩] 0 =
          reconstruct [⟨⟨2024, 5, 1⟩, 100, true, some 0⟩] 0 ∧
        ∀ (v : ℝ) (r : Record), r.is_total = true →
          (r.current_total = none ∨ r.current_total = some 0) →
          recUpdate v r = v + (r.amount : ℝ)) :=
  ⟨rfl, reconstruct_ignores_is_total_flag _ _ 0 rfl⟩

/-! ### C10: non-negativity is preserved by every operation -/

/-- The synthetic-point loop preserves non-negativity of all emitted values
and of its final value, for a non-negative monthly rate. -/
theorem synthAux_nonneg (mr : ℝ) (lo : Int) (hmr : 0 ≤ mr) :
    ∀ (n : ℕ) (v : ℝ) (i : ℕ), 0 ≤ v →
      (∀ p ∈ (synthAux mr lo v i n).1, 0 ≤ p.value) ∧ 0 ≤ (synthAux mr lo v i n).2 := by
  intro n
  induction n with
  | zero => intro v i hv; simp [synthAux, hv]
  | succ n ih =>
    intro v i hv
    have hv1 : 0 ≤ compute_growth_monthly v 1 mr := by
      rw [compute_growth_monthly]
      have : (0 : ℝ) ≤ 1 + mr := by linarith
      positivity
    obtain ⟨hmem, hfin⟩ := ih (compute_growth_monthly v 1 mr) (i + 1) hv1
    refine ⟨?_, ?_⟩
    · intro p hp
      simp only [synthAux, List.mem_cons] at hp
      rcases hp with hp | hp
      · rw [hp]; exact hv1
      · exact hmem p hp
    · simpa [synthAux] using hfin

/-- The per-record update preserves non-negativity when the record's fields
are non-negative. -/
theorem recUpdate_nonneg (v : ℝ) (r : Record) (hv : 0 ≤ v) (ha : 0 ≤ r.amount)
    (hc : ∀ c ∈ r.current_total, 0 ≤ c) : 0 ≤ recUpdate v r := by
  rw [recUpdate]
  cases hcc : r.current_total with
  | none =>
    show 0 ≤ v + (r.amount : ℝ)
    have : (0 : ℝ) ≤ (r.amount : ℝ) := by exact_mod_cast ha
    linarith
  | some c =>
    show 0 ≤ if c = 0 then v + (r.amount : ℝ) else (c : ℝ)
    by_cases h0 : c = 0
    · have : (0 : ℝ) ≤ (r.amount : ℝ) := by exact_mod_cast ha
      rw [if_pos h0]
      linarith
    · have hc0 : (0 : ℚ) ≤ c := hc c (by rw [hcc]; rfl)
      have : (0 : ℝ) ≤ (c : ℝ) := by exact_mod_cast hc0
      rw [if_neg h0]
      exact this

/-- Every value emitted by the reconstruction loop is non-negative, given a
non-negative monthly rate, start value, amounts and stored totals. -/
theorem reconstructAux_nonneg (mr : ℝ) (hmr : 0 ≤ mr) :
    ∀ (recs : List Record) (v : ℝ) (last : Option Date), 0 ≤ v →
      (∀ r ∈ recs, 0 ≤ r.amount) → (∀ r ∈ recs, ∀ c ∈ r.current_total, 0 ≤ c) →
      ∀ p ∈ reconstructAux mr v last recs, 0 ≤ p.value := by
  intro recs
  induction recs with
  | nil => intro v last _ _ _ p hp; simp [reconstructAux] at hp
  | cons r rest ih =>
    intro v last hv hamt hct p hp
    have hamtr : 0 ≤ r.amount := hamt r (by simp)
    have hctr : ∀ c ∈ r.current_total, 0 ≤ c := hct r (by simp)
    have hamt' : ∀ x ∈ rest, 0 ≤ x.amount := fun x hx => hamt x (by simp [hx])
    have hct' : ∀ x ∈ rest, ∀ c ∈ x.current_total, 0 ≤ c := fun x hx => hct x (by simp [hx])
    cases last with
    | none =>
      simp only [reconstructAux, List.nil_append, List.mem_cons] at hp
      have hv2 : 0 ≤ recUpdate v r := recUpdate_nonneg v r hv hamtr hctr
      rcases hp with hp | hp
      · rw [hp]; exact hv2
      · exact ih (recUpdate v r) (some r.date) hv2 hamt' hct' p hp
    | some ld =>
      obtain ⟨hsyn, hfin⟩ :=
        synthAux_nonneg mr ld.toOrdinal hmr (monthsBetween ld r.date).toNat v 0 hv
      have hv2 : 0 ≤ recUpdate (synthAux mr ld.toOrdinal v 0 (monthsBetween ld r.date).toNat).2 r :=
        recUpdate_nonneg _ r hfin hamtr hctr
      simp only [reconstructAux, List.mem_append, List.mem_cons] at hp
      rcases hp with hp | hp | hp
      · exact hsyn p hp
      · rw [hp]; exact hv2
      · exact ih _ (some r.date) hv2 hamt' hct' p hp

/-- Every running total emitted by the cumulative loop is non-negative,
given non-negative amounts and stored totals. -/
theorem cumulativeAux_nonneg :
    ∀ (recs : List Record) (t : ℚ), 0 ≤ t →
      (∀ r ∈ recs, 0 ≤ r.amount) → (∀ r ∈ recs, ∀ c ∈ r.current_total, 0 ≤ c) →
      ∀ x ∈ cumulativeAux t recs, 0 ≤ x := by
  intro recs
  induction recs with
  | nil => intro t _ _ _ x hx; simp [cumulativeAux] at hx
  | cons r rest ih =>
    intro t ht hamt hct x hx
    have hamtr : 0 ≤ r.amount := hamt r (by simp)
    have hctr : ∀ c ∈ r.current_total, 0 ≤ c := hct r (by simp)
    have hstep : 0 ≤ (match r.current_total with
        | some c => if c = 0 then (if r.is_total then r.amount else t + r.amount) else c
        | none => if r.is_total then r.amount else t + r.amount) := by
      cases hcc : r.current_total with
      | none =>
        show (0 : ℚ) ≤ if r.is_total = true then r.amount else t + r.amount
        by_cases hb : r.is_total = true
        · rw [if_pos hb]; exact hamtr
        · rw [if_neg hb]; linarith
      | some c =>
        show (0 : ℚ) ≤
          if c = 0 then (if r.is_total = true then r.amount else t + r.amount) else c
        by_cases h0 : c = 0
        · rw [if_pos h0]
          by_cases hb : r.is_total = true
          · rw [if_pos hb]; exact hamtr
          · rw [if_neg hb]; linarith
        · rw [if_neg h0]
          exact hctr c (by rw [hcc]; rfl)
    simp only [cumulativeAux, List.mem_cons] at hx
    rcases hx with hx | hx
    · rw [hx]; exact hstep
    · exact ih _ hstep (fun y hy => hamt y (by simp [hy]))
        (fun y hy => hct y (by simp [hy])) x hx

/-- Every forecast value is non-negative, given a non-negative monthly rate,
start value and contribution. -/
theorem computeGrowthAux_nonneg (mr monthly : ℝ) (hmr : 0 ≤ mr) (hmo : 0 ≤ monthly) :
    ∀ (n : ℕ) (v : ℝ), 0 ≤ v → ∀ x ∈ computeGrowthAux mr monthly v n, 0 ≤ x := by
  intro n
  induction n with
  | zero => intro v _ x hx; simp [computeGrowthAux] at hx
  | succ n ih =>
    intro v hv x hx
    have hv1 : 0 ≤ v * (1 + mr) + monthly := by nlinarith
    simp only [computeGrowthAux, List.mem_cons] at hx
    rcases hx with hx | hx
    · rw [hx]; exact hv1
    · exact ih _ hv1 x hx

/-- C10: with a non-negative annual rate, non-negative record amounts and
stored totals, and non-negative forecast inputs, every value emitted by
`reconstruct`, every running total of `cumulative` and every value of
`compute_growth` is non-negative. -/
theorem core_preserves_nonneg (records : List Record) (rate initial monthly : ℝ) (years : ℕ)
    (hrate : 0 ≤ rate)
    (hamt : ∀ r ∈ records, 0 ≤ r.amount)
    (hct : ∀ r ∈ records, ∀ c ∈ r.current_total, 0 ≤ c)
    (hinit : 0 ≤ initial) (hmo : 0 ≤ monthly) :
    (∀ p ∈ reconstruct records rate, 0 ≤ p.value) ∧
      (∀ t ∈ cumulative records, 0 ≤ t) ∧
      (∀ x ∈ compute_growth initial monthly years rate, 0 ≤ x) := by
  have hmr : 0 ≤ monthlyRate rate := monthlyRate_nonneg rate hrate
  refine ⟨?_, ?_, ?_⟩
  · exact reconstructAux_nonneg (monthlyRate rate) hmr records 0 none (le_refl 0) hamt hct
  · exact cumulativeAux_nonneg records 0 (le_refl 0) hamt hct
  · exact computeGrowthAux_nonneg (monthlyRate rate) monthly hmr hmo (years * 12) initial hinit

/-- Witness for C10 on a one-record history with rate 0. -/
theorem core_preserves_nonneg_witness :
    (0 : ℝ) ≤ 0 ∧
      (∀ r ∈ ([⟨⟨2024, 1, 1⟩, 100, false, none⟩] : List Record), 0 ≤ r.amount) ∧
      (∀ r ∈ ([⟨⟨2024, 1, 1⟩, 100, false, none⟩] : List Record),
        ∀ c ∈ r.current_total, 0 ≤ c) ∧
      ((∀ p ∈ reconstruct [⟨⟨2024, 1, 1⟩, 100, false, none⟩] 0, 0 ≤ p.value) ∧
        (∀ t ∈ cumulative [⟨⟨2024, 1, 1⟩, 100, false, none⟩], 0 ≤ t) ∧
        (∀ x ∈ compute_growth 0 0 1 0, 0 ≤ x)) := by
  have hamt : ∀ r ∈ ([⟨⟨2024, 1, 1⟩, 100, false, none⟩] : List Record), 0 ≤ r.amount := by
    rintro r hr
    simp only [List.mem_singleton] at hr
    subst hr
    norm_num
  have hct : ∀ r ∈ ([⟨⟨2024, 1, 1⟩, 100, false, none⟩] : List Record),
      ∀ c ∈ r.current_total, 0 ≤ c := by
    rintro r hr c hc
    simp only [List.mem_singleton] at hr
    subst hr
    simp at hc
  exact ⟨le_refl 0, hamt, hct,
    core_preserves_nonneg [⟨⟨2024, 1, 1⟩, 100, false, none⟩] 0 0 0 1 (le_refl 0) hamt hct
      (le_refl 0) (le_refl 0)⟩

/-! ### C6 (amended): when every gap is wide enough, dates come out sorted -/

/-- The gap condition between two consecutive record dates under which the
30-day stepping cannot overshoot: the dates are ordered and the actual day
gap is at least `30 * months_between`. -/
def gapOK (d1 d2 : Date) : Prop :=
  d1.toOrdinal ≤ d2.toOrdinal ∧
    30 * monthsBetween d1 d2 ≤ d2.toOrdinal - d1.toOrdinal

/-- The dates emitted by the synthetic-point loop, in closed form. -/
theorem synthAux_dates (mr : ℝ) (lo : Int) :
    ∀ (n : ℕ) (v : ℝ) (i : ℕ),
      ((synthAux mr lo v i n).1).map BalancePoint.date =
        (List.range n).map (fun j : ℕ => lo + 30 * ((i : Int) + (j : Int) + 1)) := by
  intro n
  induction n with
  | zero => intro v i; simp [synthAux]
  | succ n ih =>
    intro v i
    simp only [synthAux, List.map_cons, ih, List.range_succ_eq_map, List.map_map,
      List.cons.injEq]
    constructor
    · push_cast; ring_nf
    · apply List.map_congr_left
      intro j hj
      simp only [Function.comp]
      push_cast
      ring

/-- Under chained gap conditions starting at `ld`, the dates emitted by the
reconstruction loop are non-decreasing and all at or after `ld`. -/
theorem reconstructAux_dates_chain (mr : ℝ) :
    ∀ (recs : List Record) (v : ℝ) (ld : Date),
      List.Chain gapOK ld (recs.map Record.date) →
      (((reconstructAux mr v (some ld) recs).map BalancePoint.date).Chain' (· ≤ ·) ∧
        ∀ x ∈ (reconstructAux mr v (some ld) recs).map BalancePoint.date,
          ld.toOrdinal ≤ x) := by
  intro recs
  induction recs with
  | nil => intro v ld _; simp [reconstructAux]
  | cons r rest ih =>
    intro v ld h
    rw [List.map_cons, List.chain_cons] at h
    obtain ⟨⟨hle, hgap⟩, hchain⟩ := h
    set m := (monthsBetween ld r.date).toNat with hm
    have h30 : 30 * (m : Int) ≤ r.date.toOrdinal - ld.toOrdinal := by
      rcases le_or_lt 0 (monthsBetween ld r.date) with hnn | hneg
      · rw [hm, Int.toNat_of_nonneg hnn]; exact hgap
      · rw [hm, Int.toNat_of_nonpos hneg.le]; push_cast; linarith
    have hunfold : reconstructAux mr v (some ld) (r :: rest) =
        (synthAux mr ld.toOrdinal v 0 m).1 ++
          ⟨r.date.toOrdinal, recUpdate (synthAux mr ld.toOrdinal v 0 m).2 r⟩ ::
            reconstructAux mr (recUpdate (synthAux mr ld.toOrdinal v 0 m).2 r)
              (some r.date) rest := rfl
    obtain ⟨ihchain, ihbound⟩ :=
      ih (recUpdate (synthAux mr ld.toOrdinal v 0 m).2 r) r.date hchain
    rw [hunfold, List.map_append, List.map_cons, synthAux_dates]
    have hsd_mem : ∀ x ∈ (List.range m).map
        (fun j : ℕ => ld.toOrdinal + 30 * ((0 : Int) + (j : Int) + 1)),
        ld.toOrdinal ≤ x ∧ x ≤ ld.toOrdinal + 30 * (m : Int) := by
      intro x hx
      rw [List.mem_map] at hx
      obtain ⟨j, hj, rfl⟩ := hx
      rw [List.mem_range] at hj
      have hj1 : (j : Int) + 1 ≤ (m : Int) := by exact_mod_cast hj
      constructor <;> [linarith; linarith]
    have hsd_chain : ((List.range m).map
        (fun j : ℕ => ld.toOrdinal + 30 * ((0 : Int) + (j : Int) + 1))).Chain' (· ≤ ·) := by
      rw [List.chain'_map]
      cases m with
      | zero => simp
      | succ k =>
        rw [List.chain'_range_succ]
        intro j hj
        push_cast
        linarith
    constructor
    · refine List.Chain'.append hsd_chain (List.chain'_cons'.mpr ⟨?_, ihchain⟩) ?_
      · intro y hy
        have he := List.eq_cons_of_mem_head? hy
        exact ihbound y (by rw [he]; exact List.mem_cons_self _ _)
      · intro x hx y hy
        obtain ⟨hne, hxl⟩ := List.mem_getLast?_eq_getLast hx
        have hxmem : x ∈ (List.range m).map
            (fun j : ℕ => ld.toOrdinal + 30 * ((0 : Int) + (j : Int) + 1)) := by
          rw [hxl]; exact List.getLast_mem hne
        have hub := (hsd_mem x hxmem).2
        simp only [List.head?_cons, Option.mem_some_iff] at hy
        rw [← hy]
        linarith
    · intro x hx
      rw [List.mem_append, List.mem_cons] at hx
      rcases hx with hx | hx | hx
      · exact (hsd_mem x hx).1
      · rw [hx]; exact hle
      · exact le_trans hle (ihbound x hx)

/-- C6 amended: the emitted dates are non-decreasing whenever each pair of
consecutive records (already sorted ascending) is separated by at least
`30 * months_between` days; with records merely sorted ascending the final
synthetic point of a gap can postdate the next record, so chronological
order can fail (see the Jan-31/Feb-1 counterexample). -/
theorem reconstruct_dates_sorted_amended (records : List Record) (rate : ℝ)
    (h : (records.map Record.date).Chain' gapOK) :
    ((reconstruct records rate).map BalancePoint.date).Chain' (· ≤ ·) := by
  cases records with
  | nil => simp [reconstruct, reconstructAux]
  | cons r rest =>
    rw [List.map_cons] at h
    have h' : List.Chain gapOK r.date (rest.map Record.date) := h
    have hunfold : reconstruct (r :: rest) rate =
        ⟨r.date.toOrdinal, recUpdate 0 r⟩ ::
          reconstructAux (monthlyRate rate) (recUpdate 0 r) (some r.date) rest := rfl
    rw [hunfold, List.map_cons]
    obtain ⟨hc, hb⟩ :=
      reconstructAux_dates_chain (monthlyRate rate) rest (recUpdate 0 r) r.date h'
    refine List.chain'_cons'.mpr ⟨?_, hc⟩
    intro y hy
    have he := List.eq_cons_of_mem_head? hy
    exact hb y (by rw [he]; exact List.mem_cons_self _ _)

/-- Witness for the amended C6: the two records of the C2 scenario, whose
gap of 335 days exceeds `30 * 11 = 330`. -/
theorem reconstruct_dates_sorted_amended_witness :
    (([c2r1, c2r2] : List Record).map Record.date).Chain' gapOK ∧
      ((reconstruct [c2r1, c2r2] 0).map BalancePoint.date).Chain' (· ≤ ·) := by
  have hg : (([c2r1, c2r2] : List Record).map Record.date).Chain' gapOK := by
    norm_num [c2r1, c2r2, List.chain'_cons, List.chain'_singleton, gapOK, monthsBetween,
      Date.toOrdinal, daysBeforeMonth, isLeap]
  exact ⟨hg, reconstruct_dates_sorted_amended [c2r1, c2r2] 0 hg⟩
